import Mathlib

/- Verification of the reference-counted smart-pointer library: control block
(ControlBlockBase / ControlBlockPointer / ControlBlockHolder), SharedPtr,
WeakPtr, EnableSharedFromThis and UniquePtr.

Conventions of the embedding:
- Raw payload addresses are coded as Nat; a nullable pointer is Option Nat
  (none = nullptr).
- The C++ counters are plain int; executions the spec talks about never
  overflow them, so Int is the faithful model of the defined behavior.
- A SharedPtr or WeakPtr is a pair of fields (ptr_ : Option Nat,
  block_ : attached-or-null); the shared control block is threaded explicitly
  through every operation.
- Throwing code returns Except; heap effects (DeletePointer, delete block_)
  are returned as data. -/

/-- Control block counters (ControlBlockBase: strong_counter, weak_counter). -/
structure ControlBlock where
  strong_counter : Int
  weak_counter : Int
deriving DecidableEq, Repr

/-- BadWeakPtr, the exception thrown by the promoting constructor. -/
inductive SPError where
  | badWeakPtr
deriving DecidableEq, Repr

/-- Outcome of SharedPtr::DecrementBlockStrongCounter on a non-null block:
the block afterwards (none when `delete block_` ran) and whether
DeletePointer was invoked. -/
structure StrongDecOut where
  blockAfter : Option ControlBlock
  payloadDeleted : Bool
deriving DecidableEq, Repr

/-- SharedPtr::DecrementBlockStrongCounter, body for block_ != nullptr:
when strong == 1 and weak == 0, DeletePointer then delete block_; otherwise
decrement strong and, if it is now <= 0, DeletePointer. -/
def DecrementBlockStrongCounter (b : ControlBlock) : StrongDecOut :=
  if b.strong_counter = 1 ∧ b.weak_counter = 0 then
    { blockAfter := none, payloadDeleted := true }
  else
    let b' : ControlBlock := { b with strong_counter := b.strong_counter - 1 }
    { blockAfter := some b', payloadDeleted := decide (b'.strong_counter ≤ 0) }

/-- WeakPtr::DecrementBlockWeakCounter, body for block_ != nullptr: when
strong == 0 and weak <= 1, delete block_ (result none); otherwise decrement
the weak counter. DeletePointer is never invoked here. -/
def DecrementBlockWeakCounter (b : ControlBlock) : Option ControlBlock :=
  if b.strong_counter = 0 ∧ b.weak_counter ≤ 1 then none
  else some { b with weak_counter := b.weak_counter - 1 }

/-- The promoting constructor SharedPtr(const WeakPtr&) on a weak handle
attached to block b with cached pointer wptr: throws BadWeakPtr when the
block's strong counter is 0, otherwise copies ptr_/block_ and increments the
strong counter. Result: ((ptr_, attached), block afterwards). -/
def sharedFromWeak (wptr : Option Nat) (b : ControlBlock) :
    Except SPError ((Option Nat × Bool) × ControlBlock) :=
  if b.strong_counter = 0 then .error .badWeakPtr
  else .ok ((wptr, true), { b with strong_counter := b.strong_counter + 1 })

/-- WeakPtr::UseCount on fields (attached, block): 0 for a null block_, else
the block's strong counter. -/
def WeakUseCount (attached : Bool) (b : ControlBlock) : Int :=
  if attached then b.strong_counter else 0

/-- WeakPtr::Lock: an empty SharedPtr when UseCount() == 0, otherwise the
promoting constructor. The C++ comparison UseCount() == 0 is on the converted
size_t value, which is zero exactly when the int counter is zero or the
handle is empty, as modelled here. -/
def Lock (wptr : Option Nat) (attached : Bool) (b : ControlBlock) :
    Except SPError ((Option Nat × Bool) × ControlBlock) :=
  if WeakUseCount attached b = 0 then .ok ((none, false), b)
  else sharedFromWeak wptr b

/-- SharedPtr::UseCount on fields (attached, block). -/
def SharedUseCount (attached : Bool) (b : ControlBlock) : Int :=
  if attached then b.strong_counter else 0

/-- The aliasing constructor SharedPtr(const SharedPtr<U>& other, T* ptr):
ptr_ := q, block_ := other's block, then IncrementBlockStrongCounter (a no-op
when other is empty). Result: ((ptr_, attached), block afterwards). -/
def aliasConstruct (attached : Bool) (b : ControlBlock) (q : Option Nat) :
    (Option Nat × Bool) × ControlBlock :=
  if attached then ((q, true), { b with strong_counter := b.strong_counter + 1 })
  else ((q, false), b)

/-- The demoting constructor WeakPtr(const SharedPtr<U>& other): fields
copied, then IncrementBlockWeakCounter (a no-op when other is empty). -/
def weakFromShared (sptr : Option Nat) (attached : Bool) (b : ControlBlock) :
    (Option Nat × Bool) × ControlBlock :=
  if attached then ((sptr, true), { b with weak_counter := b.weak_counter + 1 })
  else ((sptr, false), b)

/-- UniquePtr state: the managed raw pointer data_.GetFirst(); the deleter
slot carries no state in the embedding. -/
structure UniquePtrState where
  ptr : Option Nat
deriving DecidableEq, Repr

/-- UniquePtr::Get. -/
def UniqueGet (u : UniquePtrState) : Option Nat := u.ptr

/-- UniquePtr::Reset(ptr): tmp_ptr := Get(); the field adopts ptr; the
deletion policy is invoked on tmp_ptr. Returns the new state together with
the list of pointers the deletion policy was invoked on, in call order. -/
def UniqueReset (u : UniquePtrState) (p : Option Nat) :
    UniquePtrState × List (Option Nat) :=
  let tmp := UniqueGet u
  ({ ptr := p }, [tmp])

/-- State right after an ownership-establishing construction of a payload
type deriving EnableSharedFromThis: the owning SharedPtr's ptr_, the
payload's internal weak_this field, and the control block. -/
structure SelfObsState where
  handlePtr : Option Nat
  weakThisPtr : Option Nat
  weakThisAttached : Bool
  block : ControlBlock
deriving DecidableEq, Repr

/-- The statement ptr->weak_this = *this executed by the owning constructors:
a temporary WeakPtr is converted from the SharedPtr (weak counter + 1) and
assigned into the still-empty weak_this field, whose own decrement is a
no-op; the net effect is one weak increment and the fields installed. -/
def installWeakThis (sptr : Option Nat) (b : ControlBlock) :
    (Option Nat × Bool) × ControlBlock :=
  weakFromShared sptr true b

/-- explicit SharedPtr(T* ptr) adopting a raw pointer whose type derives
EnableSharedFromThis: a fresh ControlBlockPointer (strong = 1, weak = 0),
then the weak_this installation. addr is the payload's own address. -/
def sharedFromRawSelfObs (addr : Nat) : SelfObsState :=
  let w := installWeakThis (some addr) { strong_counter := 1, weak_counter := 0 }
  { handlePtr := some addr, weakThisPtr := w.1.1, weakThisAttached := w.1.2, block := w.2 }

/-- MakeShared<T> for T deriving EnableSharedFromThis: one combined
allocation, ControlBlockHolder's constructor sets strong = 1 (weak = 0), the
payload lives at addr = GetPointer(), and SharedPtr(ControlBlockHolder*)
installs weak_this. -/
def makeSharedSelfObs (addr : Nat) : SelfObsState :=
  let w := installWeakThis (some addr) { strong_counter := 1, weak_counter := 0 }
  { handlePtr := some addr, weakThisPtr := w.1.1, weakThisAttached := w.1.2, block := w.2 }

/-- EnableSharedFromThis::SharedFromThis(): SharedPtr<T>(weak_this). -/
def SharedFromThis (st : SelfObsState) :
    Except SPError ((Option Nat × Bool) × ControlBlock) :=
  sharedFromWeak st.weakThisPtr st.block

/-- EnableSharedFromThis::WeakFromThis(): returns a WeakPtr copy of
weak_this (weak counter + 1 when attached). -/
def WeakFromThis (st : SelfObsState) : (Option Nat × Bool) × ControlBlock :=
  if st.weakThisAttached then
    ((st.weakThisPtr, true), { st.block with weak_counter := st.block.weak_counter + 1 })
  else ((st.weakThisPtr, false), st.block)

/- ===== A family of handles sharing one control block =====
Handles are held in a list; an operation names its handles by index.
A destroyed handle stays in the list as a tombstone with alive = false.
attached = true means the handle's block_ points at the family's block;
attached = false models block_ == nullptr. The event counters
payloadDeletes / blockFrees record every DeletePointer call and every
delete of the block. -/

/-- Handle kind: SharedPtr (strong) or WeakPtr (weak). -/
inductive HKind where
  | strong
  | weak
deriving DecidableEq, Repr

/-- One handle of the family. -/
structure Handle where
  alive : Bool
  attached : Bool
  ptr : Option Nat
  kind : HKind
deriving DecidableEq, Repr

/-- The family state. The block field is frozen once blockAlive is false;
on states reachable from initFamily no operation reads it again. -/
structure Family where
  blockAlive : Bool
  block : ControlBlock
  payloadAlive : Bool
  payloadDeletes : Nat
  blockFrees : Nat
  handles : List Handle
deriving DecidableEq, Repr

def isLiveStrong (h : Handle) : Bool :=
  h.alive && h.attached && h.kind == HKind.strong

def isLiveWeak (h : Handle) : Bool :=
  h.alive && h.attached && h.kind == HKind.weak

/-- Number of live strong handles attached to the family's block. -/
def liveStrong (hs : List Handle) : Nat := (hs.filter isLiveStrong).length

/-- Number of live weak handles attached to the family's block. -/
def liveWeak (hs : List Handle) : Nat := (hs.filter isLiveWeak).length

/-- IncrementBlockStrongCounter, attached case. -/
def applyStrongInc (s : Family) : Family :=
  { s with block := { s.block with strong_counter := s.block.strong_counter + 1 } }

/-- IncrementBlockWeakCounter, attached case. -/
def applyWeakInc (s : Family) : Family :=
  { s with block := { s.block with weak_counter := s.block.weak_counter + 1 } }

/-- SharedPtr::DecrementBlockStrongCounter, attached case, with the heap
events recorded on the family. -/
def applyStrongDec (s : Family) : Family :=
  let d := DecrementBlockStrongCounter s.block
  match d.blockAfter with
  | none =>
      { s with blockAlive := false, blockFrees := s.blockFrees + 1,
               payloadAlive := false, payloadDeletes := s.payloadDeletes + 1 }
  | some b' =>
      if d.payloadDeleted then
        { s with block := b', payloadAlive := false,
                 payloadDeletes := s.payloadDeletes + 1 }
      else
        { s with block := b' }

/-- WeakPtr::DecrementBlockWeakCounter, attached case. -/
def applyWeakDec (s : Family) : Family :=
  match DecrementBlockWeakCounter s.block with
  | none => { s with blockAlive := false, blockFrees := s.blockFrees + 1 }
  | some b' => { s with block := b' }

/-- A handle releasing its block reference: the decrement run by the
destructor, Reset and the assignment operators. -/
def detach (s : Family) (h : Handle) : Family :=
  if h.attached then
    match h.kind with
    | .strong => applyStrongDec s
    | .weak => applyWeakDec s
  else s

/-- Handle operations; indices refer to Family.handles. -/
inductive Op where
  | copy (i : Nat)
  | mov (i : Nat)
  | assign (i j : Nat)
  | moveAssign (i j : Nat)
  | reset (i : Nat)
  | destroy (i : Nat)
  | demote (i : Nat)
  | promote (i : Nat)
  | lock (i : Nat)
  | swap (i j : Nat)
deriving DecidableEq, Repr

/-- Copy construction, SharedPtr(const SharedPtr&) / WeakPtr(const WeakPtr&):
fields copied into a fresh handle, then the matching Increment, which is a
no-op for a null block. Copying a destroyed handle is UB in the source and
modelled as a no-op. -/
def stepCopy (s : Family) (i : Nat) : Family :=
  match s.handles[i]? with
  | some h =>
      if h.alive then
        let s' := { s with handles := s.handles ++ [⟨true, h.attached, h.ptr, h.kind⟩] }
        if h.attached then
          match h.kind with
          | .strong => applyStrongInc s'
          | .weak => applyWeakInc s'
        else s'
      else s
  | none => s

/-- Move construction: the new handle takes the fields, the source keeps its
kind but becomes empty; no counter is touched. -/
def stepMov (s : Family) (i : Nat) : Family :=
  match s.handles[i]? with
  | some h =>
      if h.alive then
        { s with handles :=
            (s.handles.set i ⟨true, false, none, h.kind⟩) ++ [⟨true, h.attached, h.ptr, h.kind⟩] }
      else s
  | none => s

/-- Copy assignment (same handle type on both sides). The source first
compares this == &other and returns unchanged on self-assignment; otherwise
it decrements its own block, copies other's fields and increments other's
block. -/
def stepAssign (s : Family) (i j : Nat) : Family :=
  if i = j then s
  else
    match s.handles[i]?, s.handles[j]? with
    | some hi, some hj =>
        if hi.alive && hj.alive && (hi.kind == hj.kind) then
          let s1 := detach s hi
          let s2 := { s1 with handles := s1.handles.set i ⟨true, hj.attached, hj.ptr, hi.kind⟩ }
          if hj.attached then
            match hi.kind with
            | .strong => applyStrongInc s2
            | .weak => applyWeakInc s2
          else s2
        else s
    | _, _ => s

/-- Move assignment. SharedPtr::operator=(SharedPtr&&) checks
this == &other and is a no-op on self-move; WeakPtr::operator=(WeakPtr&&)
has no such check, so a weak self-move decrements and empties the handle.
Otherwise: decrement own block, become empty, swap fields with the source. -/
def stepMoveAssign (s : Family) (i j : Nat) : Family :=
  match s.handles[i]?, s.handles[j]? with
  | some hi, some hj =>
      if hi.alive && hj.alive && (hi.kind == hj.kind) then
        match hi.kind with
        | .strong =>
            if i = j then s
            else
              let s1 := detach s hi
              let hs2 := (s1.handles.set i ⟨true, hj.attached, hj.ptr, HKind.strong⟩).set j
                  ⟨true, false, none, HKind.strong⟩
              { s1 with handles := hs2 }
        | .weak =>
            if i = j then
              let s1 := detach s hi
              { s1 with handles := s1.handles.set i ⟨true, false, none, HKind.weak⟩ }
            else
              let s1 := detach s hi
              let hs2 := (s1.handles.set i ⟨true, hj.attached, hj.ptr, HKind.weak⟩).set j
                  ⟨true, false, none, HKind.weak⟩
              { s1 with handles := hs2 }
      else s
  | _, _ => s

/-- Reset(): decrement, then ptr_ = nullptr and block_ = nullptr. -/
def stepReset (s : Family) (i : Nat) : Family :=
  match s.handles[i]? with
  | some h =>
      if h.alive then
        let s1 := detach s h
        { s1 with handles := s1.handles.set i ⟨true, false, none, h.kind⟩ }
      else s
  | none => s

/-- Destructor: decrement; the handle becomes a dead tombstone. -/
def stepDestroy (s : Family) (i : Nat) : Family :=
  match s.handles[i]? with
  | some h =>
      if h.alive then
        let s1 := detach s h
        { s1 with handles := s1.handles.set i ⟨false, false, none, h.kind⟩ }
      else s
  | none => s

/-- Demotion WeakPtr(const SharedPtr&): a fresh weak handle copies the
fields, then IncrementBlockWeakCounter (no-op when the source is empty). -/
def stepDemote (s : Family) (i : Nat) : Family :=
  match s.handles[i]? with
  | some h =>
      if h.alive && (h.kind == HKind.strong) then
        let s' := { s with handles := s.handles ++ [⟨true, h.attached, h.ptr, HKind.weak⟩] }
        if h.attached then applyWeakInc s' else s'
      else s
  | none => s

/-- Promotion SharedPtr(const WeakPtr&) on an attached live weak handle.
When the constructor throws BadWeakPtr no state changes and no handle is
created. Promotion from an empty weak handle dereferences a null block_ in
the source (UB) and is modelled as a no-op. -/
def stepPromote (s : Family) (i : Nat) : Family :=
  match s.handles[i]? with
  | some h =>
      if h.alive && (h.kind == HKind.weak) && h.attached then
        match sharedFromWeak h.ptr s.block with
        | .error _ => s
        | .ok ((p, att), b') =>
            { s with block := b', handles := s.handles ++ [⟨true, att, p, HKind.strong⟩] }
      else s
  | none => s

/-- WeakPtr::Lock() on a live weak handle: appends the strong handle it
returns. The .error branch is unreachable because Lock only promotes when
the strong counter is non-zero. -/
def stepLock (s : Family) (i : Nat) : Family :=
  match s.handles[i]? with
  | some h =>
      if h.alive && (h.kind == HKind.weak) then
        match Lock h.ptr h.attached s.block with
        | .ok ((p, att), b') =>
            { s with block := b', handles := s.handles ++ [⟨true, att, p, HKind.strong⟩] }
        | .error _ => s
      else s
  | none => s

/-- Swap: std::swap on ptr_ and block_ of two handles of the same type;
no counter is touched. -/
def stepSwap (s : Family) (i j : Nat) : Family :=
  if i = j then s
  else
    match s.handles[i]?, s.handles[j]? with
    | some hi, some hj =>
        if hi.alive && hj.alive && (hi.kind == hj.kind) then
          let hs2 := (s.handles.set i ⟨true, hj.attached, hj.ptr, hi.kind⟩).set j
              ⟨true, hi.attached, hi.ptr, hj.kind⟩
          { s with handles := hs2 }
        else s
    | _, _ => s

/-- One operation on the family. -/
def step (s : Family) : Op → Family
  | .copy i => stepCopy s i
  | .mov i => stepMov s i
  | .assign i j => stepAssign s i j
  | .moveAssign i j => stepMoveAssign s i j
  | .reset i => stepReset s i
  | .destroy i => stepDestroy s i
  | .demote i => stepDemote s i
  | .promote i => stepPromote s i
  | .lock i => stepLock s i
  | .swap i j => stepSwap s i j

/-- The family right after its ownership-establishing construction:
SharedPtr(T*) builds a ControlBlockPointer with strong = 1, weak = 0, and
MakeShared builds a ControlBlockHolder with the same counters; one live
attached strong handle exists. -/
def initFamily (p : Nat) : Family :=
  { blockAlive := true, block := { strong_counter := 1, weak_counter := 0 },
    payloadAlive := true, payloadDeletes := 0, blockFrees := 0,
    handles := [⟨true, true, some p, HKind.strong⟩] }

/-- Run a sequence of operations. -/
def run (s : Family) : List Op → Family
  | [] => s
  | op :: ops => run (step s op) ops

/-- The family invariant: while the block is allocated the counters equal
the numbers of live attached handles of each kind, the payload is alive
exactly while a strong handle survives, DeletePointer has run exactly once
after the last strong handle detached, and the block was never freed; once
the block is freed, no live attached handle remains and both heap events
happened exactly once. -/
def FamInv (s : Family) : Prop :=
  (s.blockAlive = true →
     s.block.strong_counter = (liveStrong s.handles : Int) ∧
     s.block.weak_counter = (liveWeak s.handles : Int) ∧
     (s.payloadAlive = true ↔ 0 < liveStrong s.handles) ∧
     (0 < liveStrong s.handles → s.payloadDeletes = 0) ∧
     (liveStrong s.handles = 0 → s.payloadDeletes = 1) ∧
     s.blockFrees = 0) ∧
  (s.blockAlive = false →
     liveStrong s.handles = 0 ∧ liveWeak s.handles = 0 ∧
     s.payloadAlive = false ∧ s.payloadDeletes = 1 ∧ s.blockFrees = 1)

instance (s : Family) : Decidable (FamInv s) := by
  unfold FamInv; infer_instance

/- ===== Counting lemmas ===== -/

theorem filterLen_append {α : Type} (p : α → Bool) (hs : List α) (x : α) :
    ((hs ++ [x]).filter p).length
      = (hs.filter p).length + (if p x then 1 else 0) := by
  rw [List.filter_append, List.length_append]
  cases hp : p x <;> simp [List.filter_cons, hp]

theorem filterLen_set {α : Type} (p : α → Bool) (hs : List α) :
    ∀ (i : Nat) (x y : α), hs[i]? = some x →
      ((hs.set i y).filter p).length + (if p x then 1 else 0)
        = (hs.filter p).length + (if p y then 1 else 0) := by
  induction hs with
  | nil => intro i x y hget; simp at hget
  | cons a t ih =>
    intro i x y hget
    cases i with
    | zero =>
      simp at hget
      subst hget
      cases hp : p a <;> cases hp' : p y <;>
        simp [List.set, List.filter_cons, hp, hp'] <;> omega
    | succ n =>
      simp at hget
      have := ih n x y hget
      cases hpa : p a <;> simp [List.set, List.filter_cons, hpa] <;> omega

theorem filterLen_pos {α : Type} (p : α → Bool) (hs : List α) :
    ∀ (i : Nat) (x : α), hs[i]? = some x → p x = true →
      0 < (hs.filter p).length := by
  induction hs with
  | nil => intro i x hget; simp at hget
  | cons a t ih =>
    intro i x hget hp
    cases i with
    | zero =>
      simp at hget
      subst hget
      simp [List.filter_cons, hp]
    | succ n =>
      simp at hget
      have := ih n x hget hp
      cases hpa : p a <;> simp [List.filter_cons, hpa] <;> omega

theorem filterLen_two {α : Type} (p : α → Bool) (hs : List α) (i j : Nat)
    (x y d : α) (hd : p d = false) (hij : i ≠ j)
    (hgi : hs[i]? = some x) (hgj : hs[j]? = some y)
    (hpi : p x = true) (hpj : p y = true) :
    2 ≤ (hs.filter p).length := by
  have h1 := filterLen_set p hs i x d hgi
  have h2 : (hs.set i d)[j]? = some y := by
    rw [List.getElem?_set_ne hij]; exact hgj
  have h3 := filterLen_pos p (hs.set i d) j y h2 hpj
  simp [hpi, hd] at h1
  omega

/- ===== Invariant helper lemmas ===== -/

theorem not_live_of_detached (h : Handle) (hatt : h.attached = false) :
    isLiveStrong h = false ∧ isLiveWeak h = false := by
  simp [isLiveStrong, isLiveWeak, hatt]

/-- A live attached handle forces the block to still be allocated. -/
theorem blockAlive_of_live (s : Family) (hInv : FamInv s) (i : Nat) (h : Handle)
    (hget : s.handles[i]? = some h) (halive : h.alive = true)
    (hatt : h.attached = true) : s.blockAlive = true := by
  cases hb : s.blockAlive
  · exfalso
    obtain ⟨hS0, hW0, -⟩ := hInv.2 hb
    cases hk : h.kind
    · have hpos : 0 < liveStrong s.handles :=
        filterLen_pos isLiveStrong s.handles i h hget
          (by simp [isLiveStrong, halive, hatt, hk])
      omega
    · have hpos : 0 < liveWeak s.handles :=
        filterLen_pos isLiveWeak s.handles i h hget
          (by simp [isLiveWeak, halive, hatt, hk])
      omega
  · rfl

/-- Appending a handle with a null block preserves the invariant. -/
theorem inv_append_detached (s : Family) (hInv : FamInv s) (x : Handle)
    (hatt : x.attached = false) :
    FamInv { s with handles := s.handles ++ [x] } := by
  obtain ⟨hxs, hxw⟩ := not_live_of_detached x hatt
  have hS : liveStrong (s.handles ++ [x]) = liveStrong s.handles := by
    simp [liveStrong, filterLen_append, hxs]
  have hW : liveWeak (s.handles ++ [x]) = liveWeak s.handles := by
    simp [liveWeak, filterLen_append, hxw]
  constructor
  · intro hb
    obtain ⟨h1, h2, h3, h4, h5, h6⟩ := hInv.1 hb
    exact ⟨by rw [hS]; exact h1, by rw [hW]; exact h2, by rw [hS]; exact h3,
      by rw [hS]; exact h4, by rw [hS]; exact h5, h6⟩
  · intro hb
    obtain ⟨h1, h2, h3, h4, h5⟩ := hInv.2 hb
    exact ⟨by rw [hS]; exact h1, by rw [hW]; exact h2, h3, h4, h5⟩

/-- Appending a fresh attached strong handle while incrementing the strong
counter preserves the invariant, provided a live attached strong handle
already exists (the one being copied or promoted). -/
theorem inv_append_attached_strong (s : Family) (hInv : FamInv s)
    (hpos : 0 < liveStrong s.handles) (p : Option Nat) :
    FamInv (applyStrongInc
      { s with handles := s.handles ++ [⟨true, true, p, HKind.strong⟩] }) := by
  have hb : s.blockAlive = true := by
    cases hb : s.blockAlive
    · obtain ⟨hS0, -⟩ := hInv.2 hb
      omega
    · rfl
  obtain ⟨h1, h2, h3, h4, h5, h6⟩ := hInv.1 hb
  have hS : liveStrong (s.handles ++ [⟨true, true, p, HKind.strong⟩])
      = liveStrong s.handles + 1 := by
    simp [liveStrong, filterLen_append, isLiveStrong]
  have hW : liveWeak (s.handles ++ [⟨true, true, p, HKind.strong⟩])
      = liveWeak s.handles := by
    simp [liveWeak, filterLen_append, isLiveWeak]
  constructor
  · intro _
    dsimp only [applyStrongInc]
    refine ⟨?_, ?_, ?_, ?_, ?_, ?_⟩
    · show s.block.strong_counter + 1 = _
      rw [hS, h1]
      push_cast
      ring
    · show s.block.weak_counter = _
      rw [hW, h2]
    · show s.payloadAlive = true ↔ _
      rw [hS]
      constructor
      · intro _; omega
      · intro _; exact h3.mpr hpos
    · intro _
      exact h4 hpos
    · rw [hS]
      omega
    · exact h6
  · intro hcontra
    rw [show (applyStrongInc { s with
        handles := s.handles ++ [⟨true, true, p, HKind.strong⟩] }).blockAlive
          = s.blockAlive from rfl, hb] at hcontra
    cases hcontra

/-- Appending a fresh attached weak handle while incrementing the weak
counter preserves the invariant, provided some live attached handle exists. -/
theorem inv_append_attached_weak (s : Family) (hInv : FamInv s)
    (hpos : 0 < liveStrong s.handles + liveWeak s.handles) (p : Option Nat) :
    FamInv (applyWeakInc
      { s with handles := s.handles ++ [⟨true, true, p, HKind.weak⟩] }) := by
  have hb : s.blockAlive = true := by
    cases hb : s.blockAlive
    · obtain ⟨hS0, hW0, -⟩ := hInv.2 hb
      omega
    · rfl
  obtain ⟨h1, h2, h3, h4, h5, h6⟩ := hInv.1 hb
  have hS : liveStrong (s.handles ++ [⟨true, true, p, HKind.weak⟩])
      = liveStrong s.handles := by
    simp [liveStrong, filterLen_append, isLiveStrong]
  have hW : liveWeak (s.handles ++ [⟨true, true, p, HKind.weak⟩])
      = liveWeak s.handles + 1 := by
    simp [liveWeak, filterLen_append, isLiveWeak]
  constructor
  · intro _
    dsimp only [applyWeakInc]
    refine ⟨?_, ?_, ?_, ?_, ?_, ?_⟩
    · show s.block.strong_counter = _
      rw [hS, h1]
    · show s.block.weak_counter + 1 = _
      rw [hW, h2]
      push_cast
      ring
    · show s.payloadAlive = true ↔ _
      rw [hS]
      exact h3
    · rw [hS]
      exact h4
    · rw [hS]
      exact h5
    · exact h6
  · intro hcontra
    rw [show (applyWeakInc { s with
        handles := s.handles ++ [⟨true, true, p, HKind.weak⟩] }).blockAlive
          = s.blockAlive from rfl, hb] at hcontra
    cases hcontra

/-- Replacing the handle list by one with the same live counts preserves the
invariant. -/
theorem inv_same_counts (s : Family) (hInv : FamInv s) (hs' : List Handle)
    (hS : liveStrong hs' = liveStrong s.handles)
    (hW : liveWeak hs' = liveWeak s.handles) :
    FamInv { s with handles := hs' } := by
  constructor
  · intro hb
    obtain ⟨h1, h2, h3, h4, h5, h6⟩ := hInv.1 hb
    exact ⟨by rw [hS]; exact h1, by rw [hW]; exact h2, by rw [hS]; exact h3,
      by rw [hS]; exact h4, by rw [hS]; exact h5, h6⟩
  · intro hb
    obtain ⟨h1, h2, h3, h4, h5⟩ := hInv.2 hb
    exact ⟨by rw [hS]; exact h1, by rw [hW]; exact h2, h3, h4, h5⟩

/-- The family s with its handle list replaced. -/
def withHandles (s : Family) (hs : List Handle) : Family :=
  { blockAlive := s.blockAlive, block := s.block, payloadAlive := s.payloadAlive,
    payloadDeletes := s.payloadDeletes, blockFrees := s.blockFrees, handles := hs }

/-- Core lemma for destructor / Reset / the assignment decrement: a live
handle h present at index i releases its block reference and the handle list
becomes any list whose live counts drop by exactly h's own contribution. -/
theorem inv_detach_set (s : Family) (hInv : FamInv s) (h : Handle)
    (halive : h.alive = true) (i : Nat) (hget : s.handles[i]? = some h)
    (hs' : List Handle)
    (hS : liveStrong hs' + (if isLiveStrong h then 1 else 0) = liveStrong s.handles)
    (hW : liveWeak hs' + (if isLiveWeak h then 1 else 0) = liveWeak s.handles) :
    FamInv (withHandles (detach s h) hs') := by
  cases hatt : h.attached
  · -- h holds no block: no decrement happens
    obtain ⟨hxs, hxw⟩ := not_live_of_detached h hatt
    rw [hxs] at hS
    rw [hxw] at hW
    simp at hS hW
    have hd : detach s h = s := by simp [detach, hatt]
    rw [hd]
    exact inv_same_counts s hInv hs' hS hW
  · have hb : s.blockAlive = true := blockAlive_of_live s hInv i h hget halive hatt
    obtain ⟨h1, h2, h3, h4, h5, h6⟩ := hInv.1 hb
    cases hk : h.kind
    · -- strong handle: SharedPtr::DecrementBlockStrongCounter
      have hlsh : isLiveStrong h = true := by simp [isLiveStrong, halive, hatt, hk]
      have hlwh : isLiveWeak h = false := by simp [isLiveWeak, hk]
      rw [hlsh] at hS
      rw [hlwh] at hW
      simp at hS hW
      have hd : detach s h = applyStrongDec s := by simp [detach, hatt, hk]
      rw [hd]
      by_cases hfree : s.block.strong_counter = 1 ∧ s.block.weak_counter = 0
      · -- strong == 1 and weak == 0: DeletePointer and delete block_
        have hstep : applyStrongDec s =
            { s with
              blockAlive := false
              blockFrees := s.blockFrees + 1
              payloadAlive := false
              payloadDeletes := s.payloadDeletes + 1 } := by
          simp [applyStrongDec, DecrementBlockStrongCounter, hfree]
        rw [hstep]
        have hls1 : liveStrong s.handles = 1 := by
          have := hfree.1
          omega
        have hlw0 : liveWeak s.handles = 0 := by
          have := hfree.2
          omega
        have hpd0 : s.payloadDeletes = 0 := h4 (by omega)
        constructor
        · intro hb2
          dsimp only [withHandles] at hb2
          exact Bool.noConfusion hb2
        · intro _
          dsimp only [withHandles]
          refine ⟨by omega, by omega, rfl, by omega, by omega⟩
      · -- otherwise decrement, then DeletePointer if the counter is <= 0
        by_cases hdel : s.block.strong_counter - 1 ≤ 0
        · have hstep : applyStrongDec s =
              { s with
                block := { s.block with strong_counter := s.block.strong_counter - 1 }
                payloadAlive := false
                payloadDeletes := s.payloadDeletes + 1 } := by
            simp [applyStrongDec, DecrementBlockStrongCounter, hfree, hdel]
          rw [hstep]
          have hls1 : liveStrong s.handles = 1 := by omega
          have hls0 : liveStrong hs' = 0 := by omega
          have hpd0 : s.payloadDeletes = 0 := h4 (by omega)
          constructor
          · intro _
            dsimp only [withHandles]
            refine ⟨by omega, by omega, ?_, by omega, by omega, h6⟩
            constructor
            · intro hc
              exact Bool.noConfusion hc
            · intro hc
              exact absurd hc (by omega)
          · intro hb2
            dsimp only [withHandles] at hb2
            rw [hb] at hb2
            exact Bool.noConfusion hb2
        · have hstep : applyStrongDec s =
              { s with
                block := { s.block with strong_counter := s.block.strong_counter - 1 } } := by
            simp [applyStrongDec, DecrementBlockStrongCounter, hfree, hdel]
          rw [hstep]
          have hls2 : 2 ≤ liveStrong s.handles := by omega
          have hpa : s.payloadAlive = true := h3.mpr (by omega)
          have hpd0 : s.payloadDeletes = 0 := h4 (by omega)
          constructor
          · intro _
            dsimp only [withHandles]
            refine ⟨by omega, by omega, ?_, by omega, by omega, h6⟩
            rw [hpa]
            constructor
            · intro _
              omega
            · intro _
              rfl
          · intro hb2
            dsimp only [withHandles] at hb2
            rw [hb] at hb2
            exact Bool.noConfusion hb2
    · -- weak handle: WeakPtr::DecrementBlockWeakCounter
      have hlsh : isLiveStrong h = false := by simp [isLiveStrong, hk]
      have hlwh : isLiveWeak h = true := by simp [isLiveWeak, halive, hatt, hk]
      rw [hlsh] at hS
      rw [hlwh] at hW
      simp at hS hW
      have hd : detach s h = applyWeakDec s := by simp [detach, hatt, hk]
      rw [hd]
      by_cases hfree : s.block.strong_counter = 0 ∧ s.block.weak_counter ≤ 1
      · -- strong == 0 and weak <= 1: delete block_
        have hstep : applyWeakDec s =
            { s with
              blockAlive := false
              blockFrees := s.blockFrees + 1 } := by
          simp [applyWeakDec, DecrementBlockWeakCounter, hfree]
        rw [hstep]
        have hls0 : liveStrong s.handles = 0 := by
          have := hfree.1
          omega
        have hlw1 : liveWeak s.handles = 1 := by
          have := hfree.2
          omega
        have hpaf : s.payloadAlive = false := by
          cases hpa : s.payloadAlive
          · rfl
          · exact absurd (h3.mp hpa) (by omega)
        have hpd1 : s.payloadDeletes = 1 := h5 hls0
        constructor
        · intro hb2
          dsimp only [withHandles] at hb2
          exact Bool.noConfusion hb2
        · intro _
          dsimp only [withHandles]
          exact ⟨by omega, by omega, hpaf, hpd1, by omega⟩
      · -- otherwise just decrement the weak counter
        have hstep : applyWeakDec s =
            { s with
              block := { s.block with weak_counter := s.block.weak_counter - 1 } } := by
          simp [applyWeakDec, DecrementBlockWeakCounter, hfree]
        rw [hstep]
        constructor
        · intro _
          dsimp only [withHandles]
          refine ⟨by omega, by omega, ?_, ?_, ?_, h6⟩
          · rw [show liveStrong hs' = liveStrong s.handles from hS]
            exact h3
          · intro hx
            exact h4 (by omega)
          · intro hx
            exact h5 (by omega)
        · intro hb2
          dsimp only [withHandles] at hb2
          rw [hb] at hb2
          exact Bool.noConfusion hb2

/- ===== Per-operation invariant preservation ===== -/

theorem applyStrongDec_handles (s : Family) :
    (applyStrongDec s).handles = s.handles := by
  by_cases hfree : s.block.strong_counter = 1 ∧ s.block.weak_counter = 0
  · simp [applyStrongDec, DecrementBlockStrongCounter, hfree]
  · by_cases hdel : s.block.strong_counter - 1 ≤ 0
    · simp [applyStrongDec, DecrementBlockStrongCounter, hfree, hdel]
    · simp [applyStrongDec, DecrementBlockStrongCounter, hfree, hdel]

theorem applyWeakDec_handles (s : Family) :
    (applyWeakDec s).handles = s.handles := by
  by_cases hfree : s.block.strong_counter = 0 ∧ s.block.weak_counter ≤ 1
  · simp [applyWeakDec, DecrementBlockWeakCounter, hfree]
  · simp [applyWeakDec, DecrementBlockWeakCounter, hfree]

theorem detach_handles (s : Family) (h : Handle) :
    (detach s h).handles = s.handles := by
  cases hatt : h.attached
  · simp [detach, hatt]
  · cases hk : h.kind
    · simp [detach, hatt, hk, applyStrongDec_handles]
    · simp [detach, hatt, hk, applyWeakDec_handles]

theorem inv_stepCopy (s : Family) (hInv : FamInv s) (i : Nat) :
    FamInv (stepCopy s i) := by
  cases hget : s.handles[i]? with
  | none =>
    simp only [stepCopy, hget]
    exact hInv
  | some h =>
    cases halive : h.alive with
    | false =>
      simp only [stepCopy, hget, halive, Bool.false_eq_true, if_false]
      exact hInv
    | true =>
      cases hatt : h.attached with
      | false =>
        simp only [stepCopy, hget, halive, hatt, if_true, Bool.false_eq_true, if_false]
        exact inv_append_detached s hInv ⟨true, false, h.ptr, h.kind⟩ rfl
      | true =>
        cases hk : h.kind with
        | strong =>
          simp only [stepCopy, hget, halive, hatt, hk, if_true]
          have hpos : 0 < liveStrong s.handles :=
            filterLen_pos isLiveStrong s.handles i h hget
              (by simp [isLiveStrong, halive, hatt, hk])
          exact inv_append_attached_strong s hInv hpos h.ptr
        | weak =>
          simp only [stepCopy, hget, halive, hatt, hk, if_true]
          have hpos : 0 < liveStrong s.handles + liveWeak s.handles := by
            have := filterLen_pos isLiveWeak s.handles i h hget
              (by simp [isLiveWeak, halive, hatt, hk])
            unfold liveWeak
            omega
          exact inv_append_attached_weak s hInv hpos h.ptr

theorem inv_stepMov (s : Family) (hInv : FamInv s) (i : Nat) :
    FamInv (stepMov s i) := by
  cases hget : s.handles[i]? with
  | none =>
    simp only [stepMov, hget]
    exact hInv
  | some h =>
    cases halive : h.alive with
    | false =>
      simp only [stepMov, hget, halive, Bool.false_eq_true, if_false]
      exact hInv
    | true =>
      simp only [stepMov, hget, halive, if_true]
      have es : isLiveStrong ⟨true, h.attached, h.ptr, h.kind⟩ = isLiveStrong h := by
        simp [isLiveStrong, halive]
      have ew : isLiveWeak ⟨true, h.attached, h.ptr, h.kind⟩ = isLiveWeak h := by
        simp [isLiveWeak, halive]
      have cs := filterLen_set isLiveStrong s.handles i h ⟨true, false, none, h.kind⟩ hget
      have cw := filterLen_set isLiveWeak s.handles i h ⟨true, false, none, h.kind⟩ hget
      have as' := filterLen_append isLiveStrong
        (s.handles.set i ⟨true, false, none, h.kind⟩) ⟨true, h.attached, h.ptr, h.kind⟩
      have aw := filterLen_append isLiveWeak
        (s.handles.set i ⟨true, false, none, h.kind⟩) ⟨true, h.attached, h.ptr, h.kind⟩
      rw [es] at as'
      rw [ew] at aw
      have hdeadS : isLiveStrong ⟨true, false, none, h.kind⟩ = false := by
        simp [isLiveStrong]
      have hdeadW : isLiveWeak ⟨true, false, none, h.kind⟩ = false := by
        simp [isLiveWeak]
      rw [hdeadS] at cs
      rw [hdeadW] at cw
      simp only [Bool.false_eq_true, if_false, Nat.add_zero] at cs cw
      refine inv_same_counts s hInv _ ?_ ?_
      · unfold liveStrong at *
        omega
      · unfold liveWeak at *
        omega

theorem inv_stepDemote (s : Family) (hInv : FamInv s) (i : Nat) :
    FamInv (stepDemote s i) := by
  cases hget : s.handles[i]? with
  | none =>
    simp only [stepDemote, hget]
    exact hInv
  | some h =>
    cases halive : h.alive with
    | false =>
      simp only [stepDemote, hget, halive, Bool.false_and, Bool.false_eq_true, if_false]
      exact hInv
    | true =>
      cases hk : h.kind with
      | weak =>
        simp only [stepDemote, hget, halive, hk]
        simp
        exact hInv
      | strong =>
        cases hatt : h.attached with
        | false =>
          simp only [stepDemote, hget, halive, hk, hatt]
          simp only [Bool.true_and, beq_self_eq_true, if_true, Bool.false_eq_true, if_false]
          exact inv_append_detached s hInv ⟨true, false, h.ptr, HKind.weak⟩ rfl
        | true =>
          simp only [stepDemote, hget, halive, hk, hatt]
          simp only [Bool.true_and, beq_self_eq_true, if_true]
          have hpos : 0 < liveStrong s.handles + liveWeak s.handles := by
            have := filterLen_pos isLiveStrong s.handles i h hget
              (by simp [isLiveStrong, halive, hatt, hk])
            unfold liveStrong
            omega
          exact inv_append_attached_weak s hInv hpos h.ptr

theorem inv_stepPromote (s : Family) (hInv : FamInv s) (i : Nat) :
    FamInv (stepPromote s i) := by
  cases hget : s.handles[i]? with
  | none =>
    simp only [stepPromote, hget]
    exact hInv
  | some h =>
    by_cases hguard : h.alive = true ∧ h.kind = HKind.weak ∧ h.attached = true
    case neg =>
      have : (h.alive && (h.kind == HKind.weak) && h.attached) = false := by
        cases ha : h.alive <;> cases hatt : h.attached <;> cases hk : h.kind <;>
          simp_all
      simp only [stepPromote, hget, this, Bool.false_eq_true, if_false]
      exact hInv
    case pos =>
      obtain ⟨halive, hk, hatt⟩ := hguard
      have hguardb : (h.alive && (h.kind == HKind.weak) && h.attached) = true := by
        simp [halive, hk, hatt]
      have hb : s.blockAlive = true := blockAlive_of_live s hInv i h hget halive hatt
      by_cases hzero : s.block.strong_counter = 0
      · simp only [stepPromote, hget, hguardb, if_true, sharedFromWeak, hzero, if_pos]
        exact hInv
      · simp only [stepPromote, hget, hguardb, if_true, sharedFromWeak, hzero,
          Bool.false_eq_true, if_false]
        have h1 := (hInv.1 hb).1
        have hpos : 0 < liveStrong s.handles := by omega
        exact inv_append_attached_strong s hInv hpos h.ptr

theorem inv_stepLock (s : Family) (hInv : FamInv s) (i : Nat) :
    FamInv (stepLock s i) := by
  cases hget : s.handles[i]? with
  | none =>
    simp only [stepLock, hget]
    exact hInv
  | some h =>
    by_cases hguard : h.alive = true ∧ h.kind = HKind.weak
    case neg =>
      have : (h.alive && (h.kind == HKind.weak)) = false := by
        cases ha : h.alive <;> cases hk : h.kind <;> simp_all
      simp only [stepLock, hget, this, Bool.false_eq_true, if_false]
      exact hInv
    case pos =>
      obtain ⟨halive, hk⟩ := hguard
      have hguardb : (h.alive && (h.kind == HKind.weak)) = true := by
        simp [halive, hk]
      cases hatt : h.attached with
      | false =>
        have base := inv_append_detached s hInv ⟨true, false, none, HKind.strong⟩ rfl
        simpa [stepLock, hget, hguardb, Lock, WeakUseCount, hatt] using base
      | true =>
        have hb : s.blockAlive = true := blockAlive_of_live s hInv i h hget halive hatt
        by_cases hzero : s.block.strong_counter = 0
        · have base := inv_append_detached s hInv ⟨true, false, none, HKind.strong⟩ rfl
          simpa [stepLock, hget, hguardb, Lock, WeakUseCount, hatt, hzero] using base
        · have h1 := (hInv.1 hb).1
          have hpos : 0 < liveStrong s.handles := by omega
          have base := inv_append_attached_strong s hInv hpos h.ptr
          simpa [stepLock, hget, hguardb, Lock, WeakUseCount, hatt, hzero,
            sharedFromWeak, applyStrongInc] using base

theorem inv_stepReset (s : Family) (hInv : FamInv s) (i : Nat) :
    FamInv (stepReset s i) := by
  cases hget : s.handles[i]? with
  | none =>
    simp only [stepReset, hget]
    exact hInv
  | some h =>
    cases halive : h.alive with
    | false =>
      simp only [stepReset, hget, halive, Bool.false_eq_true, if_false]
      exact hInv
    | true =>
      simp only [stepReset, hget, halive, if_true]
      rw [detach_handles]
      have hdeadS : isLiveStrong ⟨true, false, none, h.kind⟩ = false := by
        simp [isLiveStrong]
      have hdeadW : isLiveWeak ⟨true, false, none, h.kind⟩ = false := by
        simp [isLiveWeak]
      have cs := filterLen_set isLiveStrong s.handles i h ⟨true, false, none, h.kind⟩ hget
      have cw := filterLen_set isLiveWeak s.handles i h ⟨true, false, none, h.kind⟩ hget
      rw [hdeadS] at cs
      rw [hdeadW] at cw
      simp only [Bool.false_eq_true, if_false, Nat.add_zero] at cs cw
      exact inv_detach_set s hInv h halive i hget _ cs cw

theorem inv_stepDestroy (s : Family) (hInv : FamInv s) (i : Nat) :
    FamInv (stepDestroy s i) := by
  cases hget : s.handles[i]? with
  | none =>
    simp only [stepDestroy, hget]
    exact hInv
  | some h =>
    cases halive : h.alive with
    | false =>
      simp only [stepDestroy, hget, halive, Bool.false_eq_true, if_false]
      exact hInv
    | true =>
      simp only [stepDestroy, hget, halive, if_true]
      rw [detach_handles]
      have hdeadS : isLiveStrong ⟨false, false, none, h.kind⟩ = false := by
        simp [isLiveStrong]
      have hdeadW : isLiveWeak ⟨false, false, none, h.kind⟩ = false := by
        simp [isLiveWeak]
      have cs := filterLen_set isLiveStrong s.handles i h ⟨false, false, none, h.kind⟩ hget
      have cw := filterLen_set isLiveWeak s.handles i h ⟨false, false, none, h.kind⟩ hget
      rw [hdeadS] at cs
      rw [hdeadW] at cw
      simp only [Bool.false_eq_true, if_false, Nat.add_zero] at cs cw
      exact inv_detach_set s hInv h halive i hget _ cs cw

/-- The attach side of copy assignment: the handle at index i (currently not
live-attached in either count) becomes a live attached strong handle and the
strong counter is incremented. -/
theorem inv_attach_strong_set (s : Family) (hInv : FamInv s) (i : Nat) (x : Handle)
    (hgx : s.handles[i]? = some x) (hxs : isLiveStrong x = false)
    (hxw : isLiveWeak x = false) (hpos : 0 < liveStrong s.handles) (ptr : Option Nat) :
    FamInv (applyStrongInc
      (withHandles s (s.handles.set i ⟨true, true, ptr, HKind.strong⟩))) := by
  have hb : s.blockAlive = true := by
    cases hb : s.blockAlive
    · obtain ⟨hS0, -⟩ := hInv.2 hb
      omega
    · rfl
  obtain ⟨h1, h2, h3, h4, h5, h6⟩ := hInv.1 hb
  have cs := filterLen_set isLiveStrong s.handles i x ⟨true, true, ptr, HKind.strong⟩ hgx
  have cw := filterLen_set isLiveWeak s.handles i x ⟨true, true, ptr, HKind.strong⟩ hgx
  rw [hxs] at cs
  rw [hxw] at cw
  have hnewS : isLiveStrong ⟨true, true, ptr, HKind.strong⟩ = true := by
    simp [isLiveStrong]
  have hnewW : isLiveWeak ⟨true, true, ptr, HKind.strong⟩ = false := by
    simp [isLiveWeak]
  rw [hnewS] at cs
  rw [hnewW] at cw
  simp only [Bool.false_eq_true, if_false, if_true, Nat.add_zero] at cs cw
  have hpa : s.payloadAlive = true := h3.mpr hpos
  have cs' : liveStrong (s.handles.set i ⟨true, true, ptr, HKind.strong⟩)
      = liveStrong s.handles + 1 := cs
  have cw' : liveWeak (s.handles.set i ⟨true, true, ptr, HKind.strong⟩)
      = liveWeak s.handles := cw
  constructor
  · intro _
    dsimp only [applyStrongInc, withHandles]
    refine ⟨by omega, by omega, ?_, ?_, ?_, h6⟩
    · rw [hpa]
      constructor
      · intro _
        omega
      · intro _
        rfl
    · intro _
      exact h4 hpos
    · intro hx
      exact absurd hx (by omega)
  · intro hb2
    dsimp only [applyStrongInc, withHandles] at hb2
    rw [hb] at hb2
    exact Bool.noConfusion hb2

/-- The attach side of weak copy assignment. -/
theorem inv_attach_weak_set (s : Family) (hInv : FamInv s) (i : Nat) (x : Handle)
    (hgx : s.handles[i]? = some x) (hxs : isLiveStrong x = false)
    (hxw : isLiveWeak x = false)
    (hpos : 0 < liveStrong s.handles + liveWeak s.handles) (ptr : Option Nat) :
    FamInv (applyWeakInc
      (withHandles s (s.handles.set i ⟨true, true, ptr, HKind.weak⟩))) := by
  have hb : s.blockAlive = true := by
    cases hb : s.blockAlive
    · obtain ⟨hS0, hW0, -⟩ := hInv.2 hb
      omega
    · rfl
  obtain ⟨h1, h2, h3, h4, h5, h6⟩ := hInv.1 hb
  have cs := filterLen_set isLiveStrong s.handles i x ⟨true, true, ptr, HKind.weak⟩ hgx
  have cw := filterLen_set isLiveWeak s.handles i x ⟨true, true, ptr, HKind.weak⟩ hgx
  rw [hxs] at cs
  rw [hxw] at cw
  have hnewS : isLiveStrong ⟨true, true, ptr, HKind.weak⟩ = false := by
    simp [isLiveStrong]
  have hnewW : isLiveWeak ⟨true, true, ptr, HKind.weak⟩ = true := by
    simp [isLiveWeak]
  rw [hnewS] at cs
  rw [hnewW] at cw
  simp only [Bool.false_eq_true, if_false, if_true, Nat.add_zero] at cs cw
  have cs' : liveStrong (s.handles.set i ⟨true, true, ptr, HKind.weak⟩)
      = liveStrong s.handles := cs
  have cw' : liveWeak (s.handles.set i ⟨true, true, ptr, HKind.weak⟩)
      = liveWeak s.handles + 1 := cw
  constructor
  · intro _
    dsimp only [applyWeakInc, withHandles]
    refine ⟨by omega, by omega, ?_, ?_, ?_, h6⟩
    · rw [cs']
      exact h3
    · intro hx
      exact h4 (by omega)
    · intro hx
      exact h5 (by omega)
  · intro hb2
    dsimp only [applyWeakInc, withHandles] at hb2
    rw [hb] at hb2
    exact Bool.noConfusion hb2

theorem inv_stepSwap (s : Family) (hInv : FamInv s) (i j : Nat) :
    FamInv (stepSwap s i j) := by
  by_cases hij : i = j
  · simp only [stepSwap]
    rw [if_pos hij]
    exact hInv
  · simp only [stepSwap]
    rw [if_neg hij]
    cases hgi : s.handles[i]? with
    | none =>
      simp only [hgi]
      exact hInv
    | some hi =>
      cases hgj : s.handles[j]? with
      | none =>
        simp only [hgi, hgj]
        exact hInv
      | some hj =>
        simp only [hgi, hgj]
        by_cases hguard : hi.alive = true ∧ hj.alive = true ∧ hi.kind = hj.kind
        case neg =>
          have : (hi.alive && hj.alive && (hi.kind == hj.kind)) = false := by
            cases h1 : hi.alive <;> cases h2 : hj.alive <;>
              cases h3 : hi.kind <;> cases h4 : hj.kind <;> simp_all
          simp only [this, Bool.false_eq_true, if_false]
          exact hInv
        case pos =>
          obtain ⟨halivei, halivej, hkk⟩ := hguard
          have hguardb : (hi.alive && hj.alive && (hi.kind == hj.kind)) = true := by
            simp [halivei, halivej, hkk]
          simp only [hguardb, if_true]
          have hgj' : (s.handles.set i ⟨true, hj.attached, hj.ptr, hi.kind⟩)[j]?
              = some hj := by
            rw [List.getElem?_set_ne hij]
            exact hgj
          have eS1 : isLiveStrong ⟨true, hj.attached, hj.ptr, hi.kind⟩
              = isLiveStrong hj := by
            simp [isLiveStrong, halivej, hkk]
          have eW1 : isLiveWeak ⟨true, hj.attached, hj.ptr, hi.kind⟩
              = isLiveWeak hj := by
            simp [isLiveWeak, halivej, hkk]
          have eS2 : isLiveStrong ⟨true, hi.attached, hi.ptr, hj.kind⟩
              = isLiveStrong hi := by
            simp [isLiveStrong, halivei, hkk]
          have eW2 : isLiveWeak ⟨true, hi.attached, hi.ptr, hj.kind⟩
              = isLiveWeak hi := by
            simp [isLiveWeak, halivei, hkk]
          have c1s := filterLen_set isLiveStrong s.handles i hi
            ⟨true, hj.attached, hj.ptr, hi.kind⟩ hgi
          have c1w := filterLen_set isLiveWeak s.handles i hi
            ⟨true, hj.attached, hj.ptr, hi.kind⟩ hgi
          have c2s := filterLen_set isLiveStrong
            (s.handles.set i ⟨true, hj.attached, hj.ptr, hi.kind⟩) j hj
            ⟨true, hi.attached, hi.ptr, hj.kind⟩ hgj'
          have c2w := filterLen_set isLiveWeak
            (s.handles.set i ⟨true, hj.attached, hj.ptr, hi.kind⟩) j hj
            ⟨true, hi.attached, hi.ptr, hj.kind⟩ hgj'
          rw [eS1] at c1s
          rw [eW1] at c1w
          rw [eS2] at c2s
          rw [eW2] at c2w
          refine inv_same_counts s hInv _ ?_ ?_
          · unfold liveStrong
            omega
          · unfold liveWeak
            omega

theorem inv_stepAssign (s : Family) (hInv : FamInv s) (i j : Nat) :
    FamInv (stepAssign s i j) := by
  by_cases hij : i = j
  · simp only [stepAssign]
    rw [if_pos hij]
    exact hInv
  · simp only [stepAssign]
    rw [if_neg hij]
    cases hgi : s.handles[i]? with
    | none =>
      simp only [hgi]
      exact hInv
    | some hi =>
      cases hgj : s.handles[j]? with
      | none =>
        simp only [hgi, hgj]
        exact hInv
      | some hj =>
        simp only [hgi, hgj]
        by_cases hguard : hi.alive = true ∧ hj.alive = true ∧ hi.kind = hj.kind
        case neg =>
          have : (hi.alive && hj.alive && (hi.kind == hj.kind)) = false := by
            cases h1 : hi.alive <;> cases h2 : hj.alive <;>
              cases h3 : hi.kind <;> cases h4 : hj.kind <;> simp_all
          simp only [this, Bool.false_eq_true, if_false]
          exact hInv
        case pos =>
          obtain ⟨halivei, halivej, hkk⟩ := hguard
          have hguardb : (hi.alive && hj.alive && (hi.kind == hj.kind)) = true := by
            simp [halivei, halivej, hkk]
          simp only [hguardb, if_true]
          obtain ⟨hilt, -⟩ := List.getElem?_eq_some.mp hgi
          cases hattj : hj.attached with
          | false =>
            simp only [if_false, Bool.false_eq_true]
            rw [detach_handles]
            have hdeadS : isLiveStrong ⟨true, false, hj.ptr, hi.kind⟩ = false := by
              simp [isLiveStrong]
            have hdeadW : isLiveWeak ⟨true, false, hj.ptr, hi.kind⟩ = false := by
              simp [isLiveWeak]
            have cs := filterLen_set isLiveStrong s.handles i hi
              ⟨true, false, hj.ptr, hi.kind⟩ hgi
            have cw := filterLen_set isLiveWeak s.handles i hi
              ⟨true, false, hj.ptr, hi.kind⟩ hgi
            rw [hdeadS] at cs
            rw [hdeadW] at cw
            simp only [Bool.false_eq_true, if_false, Nat.add_zero] at cs cw
            exact inv_detach_set s hInv hi halivei i hgi _ cs cw
          | true =>
            cases hk : hi.kind with
            | strong =>
              simp only [if_true]
              rw [detach_handles]
              -- intermediate family: hi detached and index i a dead stub
              have hdeadS : isLiveStrong ⟨true, false, none, HKind.strong⟩ = false := by
                simp [isLiveStrong]
              have hdeadW : isLiveWeak ⟨true, false, none, HKind.strong⟩ = false := by
                simp [isLiveWeak]
              have cs := filterLen_set isLiveStrong s.handles i hi
                ⟨true, false, none, HKind.strong⟩ hgi
              have cw := filterLen_set isLiveWeak s.handles i hi
                ⟨true, false, none, HKind.strong⟩ hgi
              rw [hdeadS] at cs
              rw [hdeadW] at cw
              simp only [Bool.false_eq_true, if_false, Nat.add_zero] at cs cw
              have hM := inv_detach_set s hInv hi halivei i hgi
                (s.handles.set i ⟨true, false, none, HKind.strong⟩) cs cw
              -- the live strong handle at j survives in the intermediate family
              have hgMj : (s.handles.set i ⟨true, false, none, HKind.strong⟩)[j]?
                  = some hj := by
                rw [List.getElem?_set_ne hij]
                exact hgj
              have hkj : hj.kind = HKind.strong := by
                rw [← hkk, hk]
              have hposM : 0 < liveStrong
                  (s.handles.set i ⟨true, false, none, HKind.strong⟩) :=
                filterLen_pos isLiveStrong _ j hj hgMj
                  (by simp [isLiveStrong, halivej, hattj, hkj])
              have hgMi : (s.handles.set i ⟨true, false, none, HKind.strong⟩)[i]?
                  = some ⟨true, false, none, HKind.strong⟩ :=
                List.getElem?_set_self (by simpa using hilt)
              have base := inv_attach_strong_set
                (withHandles (detach s hi)
                  (s.handles.set i ⟨true, false, none, HKind.strong⟩))
                hM i ⟨true, false, none, HKind.strong⟩ hgMi hdeadS hdeadW hposM hj.ptr
              simp only [withHandles] at base
              rw [List.set_set] at base
              exact base
            | weak =>
              simp only [if_true]
              rw [detach_handles]
              have hdeadS : isLiveStrong ⟨true, false, none, HKind.weak⟩ = false := by
                simp [isLiveStrong]
              have hdeadW : isLiveWeak ⟨true, false, none, HKind.weak⟩ = false := by
                simp [isLiveWeak]
              have cs := filterLen_set isLiveStrong s.handles i hi
                ⟨true, false, none, HKind.weak⟩ hgi
              have cw := filterLen_set isLiveWeak s.handles i hi
                ⟨true, false, none, HKind.weak⟩ hgi
              rw [hdeadS] at cs
              rw [hdeadW] at cw
              simp only [Bool.false_eq_true, if_false, Nat.add_zero] at cs cw
              have hM := inv_detach_set s hInv hi halivei i hgi
                (s.handles.set i ⟨true, false, none, HKind.weak⟩) cs cw
              have hgMj : (s.handles.set i ⟨true, false, none, HKind.weak⟩)[j]?
                  = some hj := by
                rw [List.getElem?_set_ne hij]
                exact hgj
              have hkj : hj.kind = HKind.weak := by
                rw [← hkk, hk]
              have hposM : 0 < liveStrong
                    (s.handles.set i ⟨true, false, none, HKind.weak⟩)
                  + liveWeak (s.handles.set i ⟨true, false, none, HKind.weak⟩) := by
                have := filterLen_pos isLiveWeak _ j hj hgMj
                  (by simp [isLiveWeak, halivej, hattj, hkj])
                unfold liveWeak
                omega
              have hgMi : (s.handles.set i ⟨true, false, none, HKind.weak⟩)[i]?
                  = some ⟨true, false, none, HKind.weak⟩ :=
                List.getElem?_set_self (by simpa using hilt)
              have base := inv_attach_weak_set
                (withHandles (detach s hi)
                  (s.handles.set i ⟨true, false, none, HKind.weak⟩))
                hM i ⟨true, false, none, HKind.weak⟩ hgMi hdeadS hdeadW hposM hj.ptr
              simp only [withHandles] at base
              rw [List.set_set] at base
              exact base

theorem inv_stepMoveAssign (s : Family) (hInv : FamInv s) (i j : Nat) :
    FamInv (stepMoveAssign s i j) := by
  cases hgi : s.handles[i]? with
  | none =>
    simp only [stepMoveAssign, hgi]
    exact hInv
  | some hi =>
    cases hgj : s.handles[j]? with
    | none =>
      simp only [stepMoveAssign, hgi, hgj]
      exact hInv
    | some hj =>
      simp only [stepMoveAssign, hgi, hgj]
      by_cases hguard : hi.alive = true ∧ hj.alive = true ∧ hi.kind = hj.kind
      case neg =>
        have : (hi.alive && hj.alive && (hi.kind == hj.kind)) = false := by
          cases h1 : hi.alive <;> cases h2 : hj.alive <;>
            cases h3 : hi.kind <;> cases h4 : hj.kind <;> simp_all
        simp only [this, Bool.false_eq_true, if_false]
        exact hInv
      case pos =>
        obtain ⟨halivei, halivej, hkk⟩ := hguard
        have hguardb : (hi.alive && hj.alive && (hi.kind == hj.kind)) = true := by
          simp [halivei, halivej, hkk]
        simp only [hguardb, if_true]
        cases hk : hi.kind with
        | strong =>
          by_cases hij : i = j
          · rw [if_pos hij]
            exact hInv
          · rw [if_neg hij]
            rw [detach_handles]
            have hkj : hj.kind = HKind.strong := by
              rw [← hkk, hk]
            have eS1 : isLiveStrong ⟨true, hj.attached, hj.ptr, HKind.strong⟩
                = isLiveStrong hj := by
              simp [isLiveStrong, halivej, hkj]
            have eW1 : isLiveWeak ⟨true, hj.attached, hj.ptr, HKind.strong⟩
                = isLiveWeak hj := by
              simp [isLiveWeak, halivej, hkj]
            have hdeadS : isLiveStrong ⟨true, false, none, HKind.strong⟩ = false := by
              simp [isLiveStrong]
            have hdeadW : isLiveWeak ⟨true, false, none, HKind.strong⟩ = false := by
              simp [isLiveWeak]
            have hgj' : (s.handles.set i ⟨true, hj.attached, hj.ptr, HKind.strong⟩)[j]?
                = some hj := by
              rw [List.getElem?_set_ne hij]
              exact hgj
            have c1s := filterLen_set isLiveStrong s.handles i hi
              ⟨true, hj.attached, hj.ptr, HKind.strong⟩ hgi
            have c1w := filterLen_set isLiveWeak s.handles i hi
              ⟨true, hj.attached, hj.ptr, HKind.strong⟩ hgi
            have c2s := filterLen_set isLiveStrong
              (s.handles.set i ⟨true, hj.attached, hj.ptr, HKind.strong⟩) j hj
              ⟨true, false, none, HKind.strong⟩ hgj'
            have c2w := filterLen_set isLiveWeak
              (s.handles.set i ⟨true, hj.attached, hj.ptr, HKind.strong⟩) j hj
              ⟨true, false, none, HKind.strong⟩ hgj'
            rw [eS1] at c1s
            rw [eW1] at c1w
            rw [hdeadS] at c2s
            rw [hdeadW] at c2w
            simp only [Bool.false_eq_true, if_false, Nat.add_zero] at c2s c2w
            have hS : liveStrong
                ((s.handles.set i ⟨true, hj.attached, hj.ptr, HKind.strong⟩).set j
                  ⟨true, false, none, HKind.strong⟩)
                + (if isLiveStrong hi then 1 else 0) = liveStrong s.handles := by
              unfold liveStrong
              omega
            have hW : liveWeak
                ((s.handles.set i ⟨true, hj.attached, hj.ptr, HKind.strong⟩).set j
                  ⟨true, false, none, HKind.strong⟩)
                + (if isLiveWeak hi then 1 else 0) = liveWeak s.handles := by
              unfold liveWeak
              omega
            exact inv_detach_set s hInv hi halivei i hgi _ hS hW
        | weak =>
          dsimp only
          by_cases hij : i = j
          · rw [if_pos hij]
            rw [detach_handles]
            have hdeadS : isLiveStrong ⟨true, false, none, HKind.weak⟩ = false := by
              simp [isLiveStrong]
            have hdeadW : isLiveWeak ⟨true, false, none, HKind.weak⟩ = false := by
              simp [isLiveWeak]
            have cs := filterLen_set isLiveStrong s.handles i hi
              ⟨true, false, none, HKind.weak⟩ hgi
            have cw := filterLen_set isLiveWeak s.handles i hi
              ⟨true, false, none, HKind.weak⟩ hgi
            rw [hdeadS] at cs
            rw [hdeadW] at cw
            simp only [Bool.false_eq_true, if_false, Nat.add_zero] at cs cw
            exact inv_detach_set s hInv hi halivei i hgi _ cs cw
          · rw [if_neg hij]
            rw [detach_handles]
            have hkj : hj.kind = HKind.weak := by
              rw [← hkk, hk]
            have eS1 : isLiveStrong ⟨true, hj.attached, hj.ptr, HKind.weak⟩
                = isLiveStrong hj := by
              simp [isLiveStrong, halivej, hkj]
            have eW1 : isLiveWeak ⟨true, hj.attached, hj.ptr, HKind.weak⟩
                = isLiveWeak hj := by
              simp [isLiveWeak, halivej, hkj]
            have hdeadS : isLiveStrong ⟨true, false, none, HKind.weak⟩ = false := by
              simp [isLiveStrong]
            have hdeadW : isLiveWeak ⟨true, false, none, HKind.weak⟩ = false := by
              simp [isLiveWeak]
            have hgj' : (s.handles.set i ⟨true, hj.attached, hj.ptr, HKind.weak⟩)[j]?
                = some hj := by
              rw [List.getElem?_set_ne hij]
              exact hgj
            have c1s := filterLen_set isLiveStrong s.handles i hi
              ⟨true, hj.attached, hj.ptr, HKind.weak⟩ hgi
            have c1w := filterLen_set isLiveWeak s.handles i hi
              ⟨true, hj.attached, hj.ptr, HKind.weak⟩ hgi
            have c2s := filterLen_set isLiveStrong
              (s.handles.set i ⟨true, hj.attached, hj.ptr, HKind.weak⟩) j hj
              ⟨true, false, none, HKind.weak⟩ hgj'
            have c2w := filterLen_set isLiveWeak
              (s.handles.set i ⟨true, hj.attached, hj.ptr, HKind.weak⟩) j hj
              ⟨true, false, none, HKind.weak⟩ hgj'
            rw [eS1] at c1s
            rw [eW1] at c1w
            rw [hdeadS] at c2s
            rw [hdeadW] at c2w
            simp only [Bool.false_eq_true, if_false, Nat.add_zero] at c2s c2w
            have hS : liveStrong
                ((s.handles.set i ⟨true, hj.attached, hj.ptr, HKind.weak⟩).set j
                  ⟨true, false, none, HKind.weak⟩)
                + (if isLiveStrong hi then 1 else 0) = liveStrong s.handles := by
              unfold liveStrong
              omega
            have hW : liveWeak
                ((s.handles.set i ⟨true, hj.attached, hj.ptr, HKind.weak⟩).set j
                  ⟨true, false, none, HKind.weak⟩)
                + (if isLiveWeak hi then 1 else 0) = liveWeak s.handles := by
              unfold liveWeak
              omega
            exact inv_detach_set s hInv hi halivei i hgi _ hS hW

/-- Every operation preserves the family invariant. -/
theorem inv_step (s : Family) (hInv : FamInv s) (op : Op) : FamInv (step s op) := by
  cases op with
  | copy i => exact inv_stepCopy s hInv i
  | mov i => exact inv_stepMov s hInv i
  | assign i j => exact inv_stepAssign s hInv i j
  | moveAssign i j => exact inv_stepMoveAssign s hInv i j
  | reset i => exact inv_stepReset s hInv i
  | destroy i => exact inv_stepDestroy s hInv i
  | demote i => exact inv_stepDemote s hInv i
  | promote i => exact inv_stepPromote s hInv i
  | lock i => exact inv_stepLock s hInv i
  | swap i j => exact inv_stepSwap s hInv i j

theorem inv_run (s : Family) (hInv : FamInv s) (ops : List Op) :
    FamInv (run s ops) := by
  induction ops generalizing s with
  | nil => exact hInv
  | cons op rest ih => exact ih (step s op) (inv_step s hInv op)

theorem inv_initFamily (p : Nat) : FamInv (initFamily p) := by
  constructor
  · intro _
    refine ⟨?_, ?_, ?_, ?_, ?_, rfl⟩ <;>
      simp [initFamily, liveStrong, liveWeak, isLiveStrong, isLiveWeak, List.filter,
        show (HKind.strong == HKind.weak) = false from rfl,
        show (HKind.strong == HKind.strong) = true from rfl]
  · intro hb
    simp [initFamily] at hb

/-- The invariant holds in every state reachable from the creation of an
ownership group. -/
theorem inv_reachable (p : Nat) (ops : List Op) :
    FamInv (run (initFamily p) ops) :=
  inv_run (initFamily p) (inv_initFamily p) ops

/-- Along any single operation the DeletePointer event counter never
decreases and a freed block never comes back. -/
theorem step_evolution (s : Family) (op : Op) :
    s.payloadDeletes ≤ (step s op).payloadDeletes ∧
    ((step s op).blockAlive = true → s.blockAlive = true) := by
  have hsd : ∀ t : Family, t.payloadDeletes ≤ (applyStrongDec t).payloadDeletes ∧
      ((applyStrongDec t).blockAlive = true → t.blockAlive = true) := by
    intro t
    by_cases hfree : t.block.strong_counter = 1 ∧ t.block.weak_counter = 0
    · constructor
      · simp [applyStrongDec, DecrementBlockStrongCounter, hfree]
      · intro hb
        simp [applyStrongDec, DecrementBlockStrongCounter, hfree] at hb
    · by_cases hdel : t.block.strong_counter - 1 ≤ 0
      · constructor
        · simp [applyStrongDec, DecrementBlockStrongCounter, hfree, hdel]
        · intro hb
          simpa [applyStrongDec, DecrementBlockStrongCounter, hfree, hdel] using hb
      · constructor
        · simp [applyStrongDec, DecrementBlockStrongCounter, hfree, hdel]
        · intro hb
          simpa [applyStrongDec, DecrementBlockStrongCounter, hfree, hdel] using hb
  have hwd : ∀ t : Family, t.payloadDeletes ≤ (applyWeakDec t).payloadDeletes ∧
      ((applyWeakDec t).blockAlive = true → t.blockAlive = true) := by
    intro t
    by_cases hfree : t.block.strong_counter = 0 ∧ t.block.weak_counter ≤ 1
    · constructor
      · simp [applyWeakDec, DecrementBlockWeakCounter, hfree]
      · intro hb
        simp [applyWeakDec, DecrementBlockWeakCounter, hfree] at hb
    · constructor
      · simp [applyWeakDec, DecrementBlockWeakCounter, hfree]
      · intro hb
        simpa [applyWeakDec, DecrementBlockWeakCounter, hfree] using hb
  have hdet : ∀ (t : Family) (h : Handle),
      t.payloadDeletes ≤ (detach t h).payloadDeletes ∧
      ((detach t h).blockAlive = true → t.blockAlive = true) := by
    intro t h
    cases hatt : h.attached
    · simp [detach, hatt]
    · cases hk : h.kind
      · simpa [detach, hatt, hk] using hsd t
      · simpa [detach, hatt, hk] using hwd t
  cases op with
  | copy i =>
    rcases hget : s.handles[i]? with _ | ⟨a, att, p, k⟩ <;>
      simp only [step, stepCopy, hget]
    · exact ⟨Nat.le.refl, fun hb => hb⟩
    · cases a <;> cases att <;> cases k <;>
        exact ⟨Nat.le.refl, fun hb => hb⟩
  | mov i =>
    rcases hget : s.handles[i]? with _ | ⟨a, att, p, k⟩ <;>
      simp only [step, stepMov, hget]
    · exact ⟨Nat.le.refl, fun hb => hb⟩
    · cases a <;> cases att <;> cases k <;>
        exact ⟨Nat.le.refl, fun hb => hb⟩
  | demote i =>
    rcases hget : s.handles[i]? with _ | ⟨a, att, p, k⟩ <;>
      simp only [step, stepDemote, hget]
    · exact ⟨Nat.le.refl, fun hb => hb⟩
    · cases a <;> cases att <;> cases k <;>
        exact ⟨Nat.le.refl, fun hb => hb⟩
  | swap i j =>
    by_cases hij : i = j
    · simp only [step, stepSwap]
      rw [if_pos hij]
      exact ⟨Nat.le.refl, fun hb => hb⟩
    · simp only [step, stepSwap]
      rw [if_neg hij]
      rcases hgi : s.handles[i]? with _ | hi <;>
        rcases hgj : s.handles[j]? with _ | hj <;>
        simp only [hgi, hgj]
      · exact ⟨Nat.le.refl, fun hb => hb⟩
      · exact ⟨Nat.le.refl, fun hb => hb⟩
      · exact ⟨Nat.le.refl, fun hb => hb⟩
      · cases hg : (hi.alive && hj.alive && (hi.kind == hj.kind)) <;>
          simp only [hg, Bool.false_eq_true, if_false, if_true] <;>
          exact ⟨Nat.le.refl, fun hb => hb⟩
  | reset i =>
    rcases hget : s.handles[i]? with _ | h <;>
      simp only [step, stepReset, hget]
    · exact ⟨Nat.le.refl, fun hb => hb⟩
    · cases ha : h.alive <;> simp only [ha, Bool.false_eq_true, if_false, if_true]
      · exact ⟨Nat.le.refl, fun hb => hb⟩
      · exact ⟨(hdet s h).1, fun hb => (hdet s h).2 hb⟩
  | destroy i =>
    rcases hget : s.handles[i]? with _ | h <;>
      simp only [step, stepDestroy, hget]
    · exact ⟨Nat.le.refl, fun hb => hb⟩
    · cases ha : h.alive <;> simp only [ha, Bool.false_eq_true, if_false, if_true]
      · exact ⟨Nat.le.refl, fun hb => hb⟩
      · exact ⟨(hdet s h).1, fun hb => (hdet s h).2 hb⟩
  | assign i j =>
    by_cases hij : i = j
    · simp only [step, stepAssign]
      rw [if_pos hij]
      exact ⟨Nat.le.refl, fun hb => hb⟩
    · simp only [step, stepAssign]
      rw [if_neg hij]
      rcases hgi : s.handles[i]? with _ | hi <;>
        rcases hgj : s.handles[j]? with _ | hj <;>
        simp only [hgi, hgj]
      · exact ⟨Nat.le.refl, fun hb => hb⟩
      · exact ⟨Nat.le.refl, fun hb => hb⟩
      · exact ⟨Nat.le.refl, fun hb => hb⟩
      · cases hg : (hi.alive && hj.alive && (hi.kind == hj.kind)) <;>
          simp only [hg, Bool.false_eq_true, if_false, if_true]
        · exact ⟨Nat.le.refl, fun hb => hb⟩
        · cases hattj : hj.attached <;>
            simp only [hattj, Bool.false_eq_true, if_false, if_true]
          · exact ⟨(hdet s hi).1, fun hb => (hdet s hi).2 hb⟩
          · cases hk : hi.kind <;> simp only [hk]
            · exact ⟨(hdet s hi).1, fun hb => (hdet s hi).2 hb⟩
            · exact ⟨(hdet s hi).1, fun hb => (hdet s hi).2 hb⟩
  | moveAssign i j =>
    rcases hgi : s.handles[i]? with _ | hi <;>
      simp only [step, stepMoveAssign, hgi]
    · exact ⟨Nat.le.refl, fun hb => hb⟩
    · rcases hgj : s.handles[j]? with _ | hj <;> simp only [hgj]
      · exact ⟨Nat.le.refl, fun hb => hb⟩
      · cases hg : (hi.alive && hj.alive && (hi.kind == hj.kind)) <;>
          simp only [hg, Bool.false_eq_true, if_false, if_true]
        · exact ⟨Nat.le.refl, fun hb => hb⟩
        · cases hk : hi.kind <;> simp only [hk] <;> by_cases hij : i = j
          · rw [if_pos hij]
            exact ⟨Nat.le.refl, fun hb => hb⟩
          · rw [if_neg hij]
            exact ⟨(hdet s hi).1, fun hb => (hdet s hi).2 hb⟩
          · rw [if_pos hij]
            exact ⟨(hdet s hi).1, fun hb => (hdet s hi).2 hb⟩
          · rw [if_neg hij]
            exact ⟨(hdet s hi).1, fun hb => (hdet s hi).2 hb⟩
  | promote i =>
    rcases hget : s.handles[i]? with _ | h <;>
      simp only [step, stepPromote, hget]
    · exact ⟨Nat.le.refl, fun hb => hb⟩
    · cases hg : (h.alive && (h.kind == HKind.weak) && h.attached) <;>
        simp only [hg, Bool.false_eq_true, if_false, if_true]
      · exact ⟨Nat.le.refl, fun hb => hb⟩
      · rcases hv : sharedFromWeak h.ptr s.block with e | ⟨⟨pp, att⟩, b'⟩ <;>
          simp only [hv] <;>
          exact ⟨Nat.le.refl, fun hb => hb⟩
  | lock i =>
    rcases hget : s.handles[i]? with _ | h <;>
      simp only [step, stepLock, hget]
    · exact ⟨Nat.le.refl, fun hb => hb⟩
    · cases hg : (h.alive && (h.kind == HKind.weak)) <;>
        simp only [hg, Bool.false_eq_true, if_false, if_true]
      · exact ⟨Nat.le.refl, fun hb => hb⟩
      · rcases hv : Lock h.ptr h.attached s.block with e | ⟨⟨pp, att⟩, b'⟩ <;>
          simp only [hv] <;>
          exact ⟨Nat.le.refl, fun hb => hb⟩

/- ===== Claim theorems ===== -/

/-- Helper: in every invariant state the DeletePointer event count is 0
while a live strong handle remains and 1 once none does. -/
theorem pd_characterization (s : Family) (hInv : FamInv s) :
    (0 < liveStrong s.handles → s.payloadDeletes = 0) ∧
    (liveStrong s.handles = 0 → s.payloadDeletes = 1) := by
  cases hb : s.blockAlive
  · obtain ⟨h1, h2, h3, h4, h5⟩ := hInv.2 hb
    constructor
    · intro hx
      omega
    · intro _
      exact h4
  · obtain ⟨-, -, -, h4, h5, -⟩ := hInv.1 hb
    exact ⟨h4, h5⟩

/-- Helper: the block-free event count is 0 while the block is allocated
and 1 afterwards. -/
theorem frees_characterization (s : Family) (hInv : FamInv s) :
    s.blockFrees = if s.blockAlive = true then 0 else 1 := by
  cases hb : s.blockAlive
  · rw [if_neg (by simp)]
    exact (hInv.2 hb).2.2.2.2
  · rw [if_pos rfl]
    exact (hInv.1 hb).2.2.2.2.2

/-- C1: for every finite sequence of copy, move, assignment, reset and
destroy operations (plus demotion, promotion, Lock and Swap) on a family of
strong and weak handles sharing one control block, after each operation the
block's strong counter equals the number of currently-live strong handles
attached to it and the weak counter the number of currently-live weak
handles. -/
theorem counts_match_live_handles (p : Nat) (ops : List Op)
    (hb : (run (initFamily p) ops).blockAlive = true) :
    (run (initFamily p) ops).block.strong_counter
      = (liveStrong (run (initFamily p) ops).handles : Int) ∧
    (run (initFamily p) ops).block.weak_counter
      = (liveWeak (run (initFamily p) ops).handles : Int) := by
  have hInv := inv_reachable p ops
  exact ⟨(hInv.1 hb).1, (hInv.1 hb).2.1⟩

theorem counts_match_live_handles_witness :
    (run (initFamily 0) [Op.copy 0, Op.demote 0, Op.destroy 1]).blockAlive = true ∧
    (run (initFamily 0) [Op.copy 0, Op.demote 0, Op.destroy 1]).block.strong_counter
      = (liveStrong (run (initFamily 0) [Op.copy 0, Op.demote 0, Op.destroy 1]).handles : Int) ∧
    (run (initFamily 0) [Op.copy 0, Op.demote 0, Op.destroy 1]).block.weak_counter
      = (liveWeak (run (initFamily 0) [Op.copy 0, Op.demote 0, Op.destroy 1]).handles : Int) :=
  ⟨by decide, counts_match_live_handles 0 [Op.copy 0, Op.demote 0, Op.destroy 1] (by decide)⟩

/-- C2: along every operation sequence on one ownership group, DeletePointer
runs exactly once, at the operation in which the last live strong handle
detaches (the strong count drops to 0): in every reachable state the event
count is 0 while a strong handle survives and 1 after, and a further step
adds one DeletePointer event exactly when it takes the live strong count
from non-zero to zero. -/
theorem payload_destroyed_exactly_once (p : Nat) (ops : List Op) :
    (0 < liveStrong (run (initFamily p) ops).handles →
       (run (initFamily p) ops).payloadDeletes = 0) ∧
    (liveStrong (run (initFamily p) ops).handles = 0 →
       (run (initFamily p) ops).payloadDeletes = 1) ∧
    ∀ op : Op,
      (step (run (initFamily p) ops) op).payloadDeletes
        = (run (initFamily p) ops).payloadDeletes
          + (if 0 < liveStrong (run (initFamily p) ops).handles ∧
                liveStrong (step (run (initFamily p) ops) op).handles = 0
             then 1 else 0) := by
  have hInv := inv_reachable p ops
  obtain ⟨c1, c2⟩ := pd_characterization _ hInv
  refine ⟨c1, c2, ?_⟩
  intro op
  obtain ⟨c1', c2'⟩ := pd_characterization _ (inv_step _ hInv op)
  have hmono := (step_evolution (run (initFamily p) ops) op).1
  rcases Nat.eq_zero_or_pos (liveStrong (run (initFamily p) ops).handles) with h | h <;>
    rcases Nat.eq_zero_or_pos
      (liveStrong (step (run (initFamily p) ops) op).handles) with h' | h'
  · rw [if_neg (by omega)]
    have := c2 h
    have := c2' h'
    omega
  · rw [if_neg (by omega)]
    have := c2 h
    have := c1' h'
    omega
  · rw [if_pos ⟨h, h'⟩]
    have := c1 h
    have := c2' h'
    omega
  · rw [if_neg (by omega)]
    have := c1 h
    have := c1' h'
    omega

theorem payload_destroyed_exactly_once_witness :
    (run (initFamily 0) [Op.destroy 0]).payloadDeletes = 1 :=
  (payload_destroyed_exactly_once 0 [Op.destroy 0]).2.1 (by decide)

/-- C3: the control block is freed exactly once, by the operation whose
decrement leaves both counters at zero, and never while either counter
(equivalently, either live handle population) is non-zero; after the free no
live attached handle remains. -/
theorem block_freed_exactly_once (p : Nat) (ops : List Op) :
    ((run (initFamily p) ops).blockFrees
       = if (run (initFamily p) ops).blockAlive = true then 0 else 1) ∧
    ((run (initFamily p) ops).blockAlive = false →
       liveStrong (run (initFamily p) ops).handles = 0 ∧
       liveWeak (run (initFamily p) ops).handles = 0) ∧
    (0 < liveStrong (run (initFamily p) ops).handles
         + liveWeak (run (initFamily p) ops).handles →
       (run (initFamily p) ops).blockFrees = 0) ∧
    ∀ op : Op,
      (step (run (initFamily p) ops) op).blockFrees
        = (run (initFamily p) ops).blockFrees
          + (if (run (initFamily p) ops).blockAlive = true ∧
                (step (run (initFamily p) ops) op).blockAlive = false
             then 1 else 0) := by
  have hInv := inv_reachable p ops
  refine ⟨frees_characterization _ hInv, fun hb => ⟨(hInv.2 hb).1, (hInv.2 hb).2.1⟩, ?_, ?_⟩
  · intro hpos
    cases hb : (run (initFamily p) ops).blockAlive
    · obtain ⟨h1, h2, -⟩ := hInv.2 hb
      omega
    · exact (hInv.1 hb).2.2.2.2.2
  · intro op
    have hc := frees_characterization _ hInv
    have hc' := frees_characterization _ (inv_step _ hInv op)
    have hmono := (step_evolution (run (initFamily p) ops) op).2
    cases hb : (run (initFamily p) ops).blockAlive <;>
      cases hb' : (step (run (initFamily p) ops) op).blockAlive
    · rw [if_neg (by simp [hb])]
      rw [hb] at hc
      rw [hb'] at hc'
      simp at hc hc'
      omega
    · exact absurd (hmono hb') (by simp [hb])
    · rw [if_pos ⟨rfl, rfl⟩]
      rw [hb] at hc
      rw [hb'] at hc'
      simp at hc hc'
      omega
    · rw [if_neg (by simp)]
      rw [hb] at hc
      rw [hb'] at hc'
      simp at hc hc'
      omega

theorem block_freed_exactly_once_witness :
    (run (initFamily 0) []).blockFrees = 0 :=
  (block_freed_exactly_once 0 []).2.2.1 (by decide)

/-- C9: copy-assigning a strong or a weak handle to itself (the source's
this == &other test) changes nothing: not the handle's fields, not the
counters, and no payload destruction or block deallocation happens. -/
theorem self_copy_assign_noop (s : Family) (i : Nat) :
    step s (Op.assign i i) = s := by
  simp [step, stepAssign]

/-- C10: Swap on two live handles of the same kind exchanges exactly their
cached pointers and block attachments; the block, its two counters, the
payload-destruction and block-free event counts are all unchanged. -/
theorem swap_exchanges_fields_only (s : Family) (i j : Nat) (hi hj : Handle)
    (hij : i ≠ j)
    (hgi : s.handles[i]? = some hi) (hgj : s.handles[j]? = some hj)
    (hai : hi.alive = true) (haj : hj.alive = true) (hkk : hi.kind = hj.kind) :
    (step s (Op.swap i j)).blockAlive = s.blockAlive ∧
    (step s (Op.swap i j)).block = s.block ∧
    (step s (Op.swap i j)).payloadAlive = s.payloadAlive ∧
    (step s (Op.swap i j)).payloadDeletes = s.payloadDeletes ∧
    (step s (Op.swap i j)).blockFrees = s.blockFrees ∧
    (step s (Op.swap i j)).handles[i]? = some ⟨true, hj.attached, hj.ptr, hi.kind⟩ ∧
    (step s (Op.swap i j)).handles[j]? = some ⟨true, hi.attached, hi.ptr, hj.kind⟩ := by
  have hg : (hi.alive && hj.alive && (hi.kind == hj.kind)) = true := by
    simp [hai, haj, hkk]
  simp only [step, stepSwap]
  rw [if_neg hij]
  simp only [hgi, hgj, hg, if_true]
  obtain ⟨hilt, -⟩ := List.getElem?_eq_some.mp hgi
  obtain ⟨hjlt, -⟩ := List.getElem?_eq_some.mp hgj
  refine ⟨by trivial, by trivial, by trivial, by trivial, by trivial, ?_, ?_⟩
  · rw [List.getElem?_set_ne (Ne.symm hij)]
    exact List.getElem?_set_self hilt
  · exact List.getElem?_set_self (by simpa using hjlt)

theorem swap_exchanges_fields_only_witness :
    (step
        { blockAlive := true, block := ⟨1, 1⟩, payloadAlive := true,
          payloadDeletes := 0, blockFrees := 0,
          handles := [⟨true, true, some 5, HKind.strong⟩, ⟨true, false, none, HKind.strong⟩] }
        (Op.swap 0 1)).handles[0]? = some ⟨true, false, none, HKind.strong⟩ :=
  (swap_exchanges_fields_only
    { blockAlive := true, block := ⟨1, 1⟩, payloadAlive := true,
      payloadDeletes := 0, blockFrees := 0,
      handles := [⟨true, true, some 5, HKind.strong⟩, ⟨true, false, none, HKind.strong⟩] }
    0 1 ⟨true, true, some 5, HKind.strong⟩ ⟨true, false, none, HKind.strong⟩
    (by decide) (by decide) (by decide) (by decide) (by decide) (by decide)).2.2.2.2.2.1

/-- C4: constructing a SharedPtr by promotion from a weak handle whose block
has strong counter 0 throws BadWeakPtr; when the strong counter is positive
the promotion succeeds, copies the cached pointer and increments the strong
counter by one. -/
theorem promotion_dangling_or_increments (wptr : Option Nat) (b : ControlBlock) :
    (b.strong_counter = 0 → sharedFromWeak wptr b = .error SPError.badWeakPtr) ∧
    (0 < b.strong_counter →
       sharedFromWeak wptr b
         = .ok ((wptr, true), { b with strong_counter := b.strong_counter + 1 })) := by
  constructor
  · intro h0
    simp [sharedFromWeak, h0]
  · intro hpos
    simp [sharedFromWeak, show ¬b.strong_counter = 0 by omega]

theorem promotion_dangling_or_increments_witness :
    sharedFromWeak (some 7) ⟨0, 1⟩ = .error SPError.badWeakPtr ∧
    sharedFromWeak (some 7) ⟨2, 1⟩ = .ok ((some 7, true), ⟨3, 1⟩) :=
  ⟨(promotion_dangling_or_increments (some 7) ⟨0, 1⟩).1 rfl,
   (promotion_dangling_or_increments (some 7) ⟨2, 1⟩).2 (by decide)⟩

/-- C5: Lock() on an expired weak handle (empty, or attached with strong
counter 0) returns an empty SharedPtr without any error; on a live handle it
returns a handle carrying the weak handle's cached payload pointer and
increments the strong counter by exactly one. -/
theorem lock_empty_on_expired_else_promotes (wptr : Option Nat) (attached : Bool)
    (b : ControlBlock) :
    ((attached = false ∨ b.strong_counter = 0) →
       Lock wptr attached b = .ok ((none, false), b)) ∧
    (attached = true → 0 < b.strong_counter →
       Lock wptr attached b
         = .ok ((wptr, true), { b with strong_counter := b.strong_counter + 1 })) := by
  constructor
  · rintro (h | h)
    · simp [Lock, WeakUseCount, h]
    · cases attached <;> simp [Lock, WeakUseCount, h]
  · intro ha hpos
    subst ha
    simp [Lock, WeakUseCount, sharedFromWeak, show ¬b.strong_counter = 0 by omega]

theorem lock_empty_on_expired_else_promotes_witness :
    Lock (some 3) false ⟨5, 0⟩ = .ok ((none, false), ⟨5, 0⟩) ∧
    Lock (some 3) true ⟨0, 2⟩ = .ok ((none, false), ⟨0, 2⟩) ∧
    Lock (some 3) true ⟨1, 0⟩ = .ok ((some 3, true), ⟨2, 0⟩) :=
  ⟨(lock_empty_on_expired_else_promotes (some 3) false ⟨5, 0⟩).1 (Or.inl rfl),
   (lock_empty_on_expired_else_promotes (some 3) true ⟨0, 2⟩).1 (Or.inr rfl),
   (lock_empty_on_expired_else_promotes (some 3) true ⟨1, 0⟩).2 rfl (by decide)⟩

/-- C7: aliasing construction from a non-empty strong handle: the new handle
exposes exactly the arbitrary pointer q, shares the source's block whose
strong counter grows by one (UseCount tracks that block) while the weak
counter is untouched, and a subsequent destruction of the original handle
decrements the counter without destroying the payload or the block. -/
theorem alias_construction_spec (b : ControlBlock) (q : Option Nat)
    (hpos : 1 ≤ b.strong_counter) :
    (aliasConstruct true b q).1.1 = q ∧
    (aliasConstruct true b q).1.2 = true ∧
    (aliasConstruct true b q).2.strong_counter = b.strong_counter + 1 ∧
    (aliasConstruct true b q).2.weak_counter = b.weak_counter ∧
    SharedUseCount true (aliasConstruct true b q).2 = b.strong_counter + 1 ∧
    (DecrementBlockStrongCounter (aliasConstruct true b q).2).payloadDeleted = false ∧
    (DecrementBlockStrongCounter (aliasConstruct true b q).2).blockAfter = some b := by
  rcases b with ⟨sc, wc⟩
  simp only [aliasConstruct, if_true, SharedUseCount]
  simp only at hpos
  refine ⟨by trivial, by trivial, by trivial, by trivial, by trivial, ?_, ?_⟩
  · simp only [DecrementBlockStrongCounter]
    rw [if_neg (by simp; omega)]
    simp
    omega
  · simp only [DecrementBlockStrongCounter]
    rw [if_neg (by simp; omega)]
    simp

theorem alias_construction_spec_witness :
    (aliasConstruct true ⟨1, 0⟩ (some 42)).1.1 = some 42 ∧
    (aliasConstruct true ⟨1, 0⟩ (some 42)).2.strong_counter = 2 ∧
    (DecrementBlockStrongCounter (aliasConstruct true ⟨1, 0⟩ (some 42)).2).payloadDeleted
      = false :=
  ⟨(alias_construction_spec ⟨1, 0⟩ (some 42) (by decide)).1,
   (alias_construction_spec ⟨1, 0⟩ (some 42) (by decide)).2.2.1,
   (alias_construction_spec ⟨1, 0⟩ (some 42) (by decide)).2.2.2.2.2.1⟩

/-- C8: UniquePtr::Reset(p) invokes the deletion policy exactly once, on the
previously held resource, and afterwards Get() returns p. -/
theorem unique_reset_spec (u : UniquePtrState) (p : Option Nat) :
    UniqueGet (UniqueReset u p).1 = p ∧ (UniqueReset u p).2 = [UniqueGet u] :=
  ⟨rfl, rfl⟩

/-- C6: after a payload deriving EnableSharedFromThis is wrapped by its first
owning handle (raw-pointer adoption or MakeShared), the installed weak_this
holds the object's own address and only the weak counter grew (strong = 1,
weak = 1); SharedFromThis() returns a handle whose pointer equals the owning
handle's pointer and takes the strong counter to 2, and WeakFromThis()
returns the same pointer touching only the weak counter. -/
theorem self_observation_spec (addr : Nat) :
    (makeSharedSelfObs addr).block.strong_counter = 1 ∧
    (makeSharedSelfObs addr).block.weak_counter = 1 ∧
    (makeSharedSelfObs addr).weakThisPtr = some addr ∧
    (makeSharedSelfObs addr).handlePtr = some addr ∧
    SharedFromThis (makeSharedSelfObs addr)
      = .ok ((some addr, true), ⟨2, 1⟩) ∧
    WeakFromThis (makeSharedSelfObs addr) = ((some addr, true), ⟨1, 2⟩) ∧
    (sharedFromRawSelfObs addr).block.strong_counter = 1 ∧
    (sharedFromRawSelfObs addr).block.weak_counter = 1 ∧
    (sharedFromRawSelfObs addr).weakThisPtr = some addr ∧
    (sharedFromRawSelfObs addr).handlePtr = some addr ∧
    SharedFromThis (sharedFromRawSelfObs addr)
      = .ok ((some addr, true), ⟨2, 1⟩) := by
  refine ⟨rfl, rfl, rfl, rfl, ?_, ?_, rfl, rfl, rfl, rfl, ?_⟩ <;>
    simp [SharedFromThis, WeakFromThis, makeSharedSelfObs, sharedFromRawSelfObs,
      installWeakThis, weakFromShared, sharedFromWeak]
